import Mathlib

/-!
Shallow embedding of the AI-Search-Engine retrieval-augmented search pipeline
(`src/app/api/search/route.ts` and the `SearchResult` type of `src/types/search.ts`).

Network and completion-service effects are abstracted as oracles:
* a completion call either throws, returns a null content, or returns a string;
* an HTTP fetch either throws / returns a non-ok status (both collapse to the
  same catch branch in the source) or succeeds with a parsed payload
  (the list of result containers for the search page, the post-removal
  document for a content page).
JavaScript string operations used by the source (`trim`, `split('\n')`,
`startsWith`, the two regex replaces, `slice`, `join`) are modelled
character-list by character-list below.
-/

namespace SearchEngine

/-! ### JavaScript string primitives -/

/-- JS `String.prototype.trim` on the character list: drop whitespace from the
front, then from the back. -/
def trimL (l : List Char) : List Char :=
  (l.dropWhile Char.isWhitespace).rdropWhile Char.isWhitespace

/-- JS `s.trim()`. -/
def jsTrim (s : String) : String := ⟨trimL s.data⟩

/-- JS `s.startsWith(p)`. -/
def jsStartsWith (s p : String) : Bool := p.data.isPrefixOf s.data

/-- JS `s.split('\n')` on character lists: the segments between newline
characters, in order; an empty string splits to one empty segment. -/
def splitNl : List Char → List (List Char)
  | [] => [[]]
  | c :: cs =>
    if c = '\n' then [] :: splitNl cs
    else
      match splitNl cs with
      | [] => [[c]]
      | h :: t => (c :: h) :: t

/-- JS `s.split('\n')`. -/
def jsSplitNl (s : String) : List String := (splitNl s.data).map fun l => ⟨l⟩

/-- First regex replace of the extractor: `/\s+/g → ' '`, replacing every
maximal whitespace run by a single space.  The flag records whether the scan
is currently inside a whitespace run (whose single replacement space has
already been emitted). -/
def collapseWsAux : Bool → List Char → List Char
  | _, [] => []
  | inWs, c :: cs =>
    if c.isWhitespace then
      if inWs then collapseWsAux true cs
      else ' ' :: collapseWsAux true cs
    else c :: collapseWsAux false cs

/-- `content.replace(/\s+/g, ' ')`. -/
def collapseWs (l : List Char) : List Char := collapseWsAux false l

/-- Split a character list around its last newline: `some (a, b)` with
`l = a ++ '\n' :: b` and `b` newline-free, or `none` when `l` has no
newline. -/
def splitLastNl : List Char → Option (List Char × List Char)
  | [] => none
  | c :: cs =>
    match splitLastNl cs with
    | some (a, b) => some (c :: a, b)
    | none => if c = '\n' then some ([], cs) else none

/-- One step-bounded pass of the second regex replace of the extractor,
`/\n\s*\n/g → "\n\n"`.  At a newline, the greedy `\s*` takes the longest
whitespace stretch that still leaves a final `'\n'` (i.e. everything up to the
last newline of the maximal whitespace run); the whole match is replaced by
two newlines and the scan resumes after the match.  Each step consumes at
least one character, so `fuel = length` (as used by `replNl`) never runs
out. -/
def replNlF : Nat → List Char → List Char
  | 0, l => l
  | _ + 1, [] => []
  | fuel + 1, c :: cs =>
    if c = '\n' then
      match splitLastNl (cs.takeWhile Char.isWhitespace) with
      | some (_, b) => '\n' :: '\n' :: replNlF fuel (b ++ cs.dropWhile Char.isWhitespace)
      | none => c :: replNlF fuel cs
    else c :: replNlF fuel cs

/-- `content.replace(/\n\s*\n/g, '\n\n')`. -/
def replNl (l : List Char) : List Char := replNlF l.length l

/-- The whole clean-up chain of the extractor:
`.replace(/\s+/g, ' ').replace(/\n\s*\n/g, '\n\n').trim().slice(0, 4000)`. -/
def cleanup (s : String) : String :=
  ⟨(trimL (replNl (collapseWs s.data))).take 4000⟩

/-! ### Oracles for the external effects -/

/-- Outcome of one completion-service call (`openai.chat.completions.create`):
the call throws, or returns a message whose `content` is null, or returns a
message with a string content. -/
inductive Completion where
  | failure : Completion
  | success : Option String → Completion
deriving DecidableEq

/-- Outcome of one HTTP fetch, already parsed: the fetch throws or returns a
non-ok status (both reach the same catch in the source), or succeeds with
payload `α`. -/
inductive FetchOutcome (α : Type) where
  | failure : FetchOutcome α
  | success : α → FetchOutcome α

/-! ### QueryExpander (`generateSearchQueries`) -/

/-- `generateSearchQueries` of `route.ts` (lines 15–41): on a thrown
completion call or a falsy content (null or the empty string) return
`[query]`; otherwise split the content on newlines and keep the lines whose
trimmed form is non-empty (JS `content.split('\n').filter(q => q.trim())`). -/
def generateSearchQueries (query : String) (o : Completion) : List String :=
  match o with
  | .failure => [query]
  | .success none => [query]
  | .success (some content) =>
    if content = "" then [query]
    else (jsSplitNl content).filter fun q => jsTrim q ≠ ""

/-! ### SearchResultParser (`searchGoogle`) -/

/-- `SearchResult` of `src/types/search.ts`. -/
structure SearchResult where
  title : String
  url : String
  snippet : String
deriving DecidableEq

/-- One `div.g` result container as read by the scan of `searchGoogle`:
the text of its `h3` node, the `href` attribute of its first link
(`none` when the attribute is absent), and the text of its snippet node.
`cheerio`'s `.text()` returns `""` when no node matches. -/
structure Candidate where
  title : String
  href : Option String
  snippet : String
deriving DecidableEq

/-- The per-container acceptance test of `searchGoogle` (lines 62–73):
`url && url.startsWith('http') && title && snippet` — all three raw strings
truthy (non-empty, with `href` present) and the raw url starting with
`http`; the stored fields are the trimmed forms. -/
def acceptCandidate (c : Candidate) : Option SearchResult :=
  match c.href with
  | none => none
  | some u =>
    if u ≠ "" ∧ jsStartsWith u "http" ∧ c.title ≠ "" ∧ c.snippet ≠ "" then
      some ⟨jsTrim c.title, jsTrim u, jsTrim c.snippet⟩
    else none

/-- `searchGoogle` of `route.ts` (lines 43–84): on fetch failure return `[]`;
otherwise accept candidates in document order and return the first 8
(`results.slice(0, 8)`). -/
def searchGoogle (o : FetchOutcome (List Candidate)) : List SearchResult :=
  match o with
  | .failure => []
  | .success cands => (cands.filterMap acceptCandidate).take 8

/-! ### ContentExtractor (`extractContent`) -/

/-- A fetched page after `$('script, style, nav, header, footer, aside,
iframe, img').remove()`: `selText sel` is the combined text of the elements
matched by selector `sel` (`none` when no element matches, mirroring
`element.length > 0`), and `paragraphs` lists the texts of the `p`
elements in document order. -/
structure Doc where
  selText : String → Option String
  paragraphs : List String

/-- The fixed selector priority list of `extractContent` (lines 98–106). -/
def contentSelectors : List String :=
  ["article", "main", ".content", ".post-content", ".article-content",
   "#content", "#main-content"]

/-- The selector loop of `extractContent` (lines 110–117): the first selector
that matches any element sets `content` to that element's trimmed text and
breaks; if no selector matches, `content` stays `''`. -/
def selectorScan (d : Doc) : List String → String
  | [] => ""
  | sel :: rest =>
    match d.selText sel with
    | some t => jsTrim t
    | none => selectorScan d rest

/-- The paragraph fallback of `extractContent` (lines 120–127): trimmed
paragraph texts longer than 50 characters, joined with `'\n\n'`. -/
def paragraphFallback (d : Doc) : String :=
  String.intercalate "\n\n"
    ((d.paragraphs.map jsTrim).filter fun t => t.length > 50)

/-- Content selection of `extractContent` before clean-up: the selector scan
result, or — exactly when that result is the falsy `''` — the paragraph
fallback. -/
def pickContent (d : Doc) : String :=
  let content := selectorScan d contentSelectors
  if content = "" then paragraphFallback d else content

/-- `extractContent` of `route.ts` (lines 86–139): on fetch failure return
`''`; otherwise pick the content and run the clean-up chain. -/
def extractContent (o : FetchOutcome Doc) : String :=
  match o with
  | .failure => ""
  | .success d => cleanup (pickContent d)

/-! ### Synthesizer (`synthesizeInformation`) -/

/-- The per-source loop of `synthesizeInformation` (lines 143–162), returning
the accumulated `sourceTexts` and `citations`.  `extractContent` absorbs its
own failures (the inner catch is unreachable), so each source appends a
content block and its url exactly when extraction returns non-empty content,
and independently appends a snippet block when its snippet is non-empty. -/
def processSources (eo : String → FetchOutcome Doc) :
    List SearchResult → List String × List String
  | [] => ([], [])
  | s :: rest =>
    let content := extractContent (eo s.url)
    let acc := processSources eo rest
    ((if content ≠ "" then ["Content from " ++ s.url ++ ":\n" ++ content] else []) ++
       (if s.snippet ≠ "" then ["Snippet: " ++ s.snippet] else []) ++ acc.1,
     (if content ≠ "" then [s.url] else []) ++ acc.2)

/-- `synthesizeInformation` of `route.ts` (lines 141–183): accumulate blocks
and citations over the sources, then one completion call; a thrown call hits
the catch and yields the fixed error pair, a null content yields the fixed
fallback text with the accumulated citations, and a string content is
returned as the answer with the accumulated citations. -/
def synthesizeInformation (query : String) (sources : List SearchResult)
    (eo : String → FetchOutcome Doc) (so : Completion) : String × List String :=
  let acc := processSources eo sources
  match so with
  | .failure => ("Error synthesizing information.", [])
  | .success none => ("No content available", acc.2)
  | .success (some content) => (content, acc.2)

/-! ### Orchestrator (`POST`) -/

/-- The inbound request body as seen through `await request.json()` followed
by destructuring of the `query` field: the body text is not valid JSON (the
parse throws); or it is the JSON literal `null` (the parse succeeds but
`const { query } = null` throws a TypeError — `null` is the only JSON value
whose destructuring throws); or it parses to any other value, on which the
`query` field is present with a string value or absent (destructuring a
non-null primitive boxes it and just yields undefined). -/
inductive RequestBody where
  | invalidJson : RequestBody
  | jsonNull : RequestBody
  | json : Option String → RequestBody

/-- The external effects one run of the endpoint can hit, keyed by the
argument of the corresponding call. -/
structure Oracles where
  expandOutcome : Completion
  searchOutcome : String → FetchOutcome (List Candidate)
  extractOutcome : String → FetchOutcome Doc
  synthOutcome : Completion

/-- The response of the endpoint: `NextResponse.json({query, answer,
citations, searchQueriesUsed})` with status 200, or `NextResponse.json({error},
{status: 500})`. -/
inductive PostResponse where
  | ok : (query : String) → (answer : String) → (citations : List String) →
      (searchQueriesUsed : List String) → PostResponse
  | err : (status : Nat) → (error : String) → PostResponse

/-- The citations field of a response (`[]` on the error branch, which has
none). -/
def PostResponse.citationsOf : PostResponse → List String
  | .ok _ _ citations _ => citations
  | .err _ _ => []

/-- The HTTP status of a response. -/
def PostResponse.status : PostResponse → Nat
  | .ok _ _ _ _ => 200
  | .err s _ => s

/-- `POST` of `route.ts` (lines 185–218).  Only `request.json()` and the
destructuring of its result can throw inside the `try` (every pipeline stage
absorbs its own failures), so the catch branch (HTTP 500) is taken exactly
for an unparseable body or the JSON-`null` body.  Any other parsed body
without a `query` field leaves `query` as the undefined value, which every
downstream use (template interpolation, URI encoding) renders as the string
`"undefined"`; it is modelled as that string. -/
def POST (body : RequestBody) (o : Oracles) : PostResponse :=
  match body with
  | .invalidJson => .err 500 "Failed to process search"
  | .jsonNull => .err 500 "Failed to process search"
  | .json q =>
    let query := q.getD "undefined"
    let searchQueries := generateSearchQueries query o.expandOutcome
    let allSources :=
      searchQueries.foldl (fun acc sq => acc ++ searchGoogle (o.searchOutcome sq)) []
    let res := synthesizeInformation query allSources o.extractOutcome o.synthOutcome
    .ok query res.1 res.2 searchQueries

/-! ### Spec-side definition for the selector claim, and concrete fixtures -/

/-- Modelled from the spec words (for comparison with the source behaviour,
claim C5): "the first selector that matches a non-empty element wins and its
full text is used verbatim" — the first selector of the priority list whose
matched element has non-empty text, with that text. -/
def specFirstNonEmptySelText (d : Doc) : Option String :=
  contentSelectors.findSome? fun sel =>
    (d.selText sel).bind fun t => if t = "" then none else some t

/-- The first selector of the priority list that matches any element at all,
with that element's text. -/
def firstSelMatch (d : Doc) : Option String :=
  contentSelectors.findSome? d.selText

/-- A page whose `article` element exists but has empty text while its `main`
element has text, and which has no paragraphs. -/
def doc5 : Doc :=
  ⟨fun sel =>
    if sel = "article" then some ""
    else if sel = "main" then some "Hello world" else none, []⟩

/-- 3999 copies of `'a'`. -/
def padA : List Char := List.replicate 3999 'a'

/-- A page whose `article` text cleans up to 4002 characters with a space at
position 3999, so that the 4000-character cut ends on the space. -/
def doc6 : Doc :=
  ⟨fun sel => if sel = "article" then some ⟨padA ++ ' ' :: 'b' :: ['b']⟩ else none, []⟩

/-- A page whose `article` text is `"hello"`. -/
def docHello : Doc :=
  ⟨fun sel => if sel = "article" then some "hello" else none, []⟩

/-- An extraction oracle that always succeeds with `docHello`. -/
def eoHello : String → FetchOutcome Doc := fun _ => .success docHello

/-- A well-formed source. -/
def srcA : SearchResult := ⟨"T", "http://a.example", "snip"⟩

/-- A result container whose title is whitespace-only. -/
def cand3 : Candidate := ⟨" ", some "http://a.example", "s"⟩

/-- Oracles on which every external call fails. -/
def oracles0 : Oracles := ⟨.failure, fun _ => .failure, fun _ => .failure, .failure⟩

/-- Oracles for one fully successful run: one expanded query, one search hit,
extraction succeeding with `docHello`, synthesis succeeding. -/
def oraclesOk : Oracles :=
  ⟨.success (some "q1"),
   fun _ => .success [⟨"T", some "http://a.example", "snip"⟩],
   eoHello,
   .success (some "ans")⟩

/-- `true` iff the character list has no two adjacent space characters. -/
def noDoubleSpace : List Char → Bool
  | a :: b :: rest => (!(a == ' ' && b == ' ')) && noDoubleSpace (b :: rest)
  | _ => true

/-! ### Lemmas about the string primitives -/

theorem dropWhile_eq_self_of_all {p : α → Bool} :
    ∀ {l : List α}, (∀ c ∈ l, p c = false) → l.dropWhile p = l
  | [], _ => rfl
  | c :: cs, h => by
    rw [List.dropWhile_cons, h c (List.mem_cons_self c cs)]
    simp

theorem trimL_subseg (l : List Char) : trimL l <:+: l := by
  unfold trimL
  exact List.IsInfix.trans
    ( List.IsPrefix.isInfix ( List.rdropWhile_prefix _ _))
    ( List.IsSuffix.isInfix ( List.dropWhile_suffix _))

theorem head?_trimL_not_ws (l : List Char) :
    ∀ c, (trimL l).head? = some c → c.isWhitespace = false := by
  intro c hc
  unfold trimL at hc
  set m := l.dropWhile Char.isWhitespace with hm
  have hpre : (m.rdropWhile Char.isWhitespace) <+: m := List.rdropWhile_prefix _ _
  obtain ⟨t, ht⟩ := hpre
  have hne : m.rdropWhile Char.isWhitespace ≠ [] := by
    intro he
    rw [he] at hc
    simp at hc
  have hhead : m.head? = some c := by
    rw [← ht, List.head?_append_of_ne_nil _ hne, hc]
  have hmatch := List.head?_dropWhile_not Char.isWhitespace l
  rw [← hm, hhead] at hmatch
  exact hmatch

theorem dropWhile_eq_self_of_head {p : α → Bool} :
    ∀ {l : List α}, (∀ c, l.head? = some c → p c = false) → l.dropWhile p = l
  | [], _ => rfl
  | c :: cs, h => by
    rw [List.dropWhile_cons, h c rfl]
    simp

theorem trimL_idem (l : List Char) : trimL (trimL l) = trimL l := by
  have h1 : (trimL l).dropWhile Char.isWhitespace = trimL l :=
    dropWhile_eq_self_of_head (head?_trimL_not_ws l)
  show ((trimL l).dropWhile Char.isWhitespace).rdropWhile Char.isWhitespace = trimL l
  rw [h1]
  exact List.rdropWhile_idempotent _ _

theorem prefix_trimL {p l : List Char} (hne : p ≠ [])
    (hw : ∀ c ∈ p, c.isWhitespace = false) (h : p <+: l) : p <+: trimL l := by
  obtain ⟨t, rfl⟩ := h
  have h1 : (p ++ t).dropWhile Char.isWhitespace = p ++ t := by
    rw [List.dropWhile_append, dropWhile_eq_self_of_all hw]
    simp [hne]
  show p <+: ((p ++ t).dropWhile Char.isWhitespace).rdropWhile Char.isWhitespace
  rw [h1]
  unfold List.rdropWhile
  rw [List.reverse_append, List.dropWhile_append]
  by_cases he : ((t.reverse).dropWhile Char.isWhitespace).isEmpty = true
  · rw [if_pos he, dropWhile_eq_self_of_all (fun c hc => hw c (List.mem_reverse.mp hc))]
    simp
  · rw [if_neg he, List.reverse_append, List.reverse_reverse]
    exact ⟨_, rfl⟩

theorem trimL_eq_self {l : List Char}
    (h1 : ∀ c, l.head? = some c → c.isWhitespace = false)
    (h2 : ∀ c, l.getLast? = some c → c.isWhitespace = false) : trimL l = l := by
  show (l.dropWhile Char.isWhitespace).rdropWhile Char.isWhitespace = l
  rw [dropWhile_eq_self_of_head h1]
  rw [List.rdropWhile_eq_self_iff]
  intro hl
  have := h2 (l.getLast hl) (List.getLast?_eq_getLast l hl)
  simp [this]

/-! ### Lemmas about the whitespace-collapsing replace -/

theorem mem_collapseWsAux :
    ∀ (b : Bool) (l : List Char) (c : Char), c ∈ collapseWsAux b l →
      c = ' ' ∨ (c ∈ l ∧ c.isWhitespace = false) := by
  intro b l
  induction l generalizing b with
  | nil => intro c hc; simp [collapseWsAux] at hc
  | cons d cs ih =>
    intro c hc
    simp only [collapseWsAux] at hc
    by_cases hd : d.isWhitespace
    · rw [if_pos hd] at hc
      cases b with
      | true =>
        rcases ih true c hc with h | ⟨hm, hw⟩
        · exact Or.inl h
        · exact Or.inr ⟨List.mem_cons_of_mem _ hm, hw⟩
      | false =>
        rcases List.mem_cons.mp hc with h | h
        · exact Or.inl h
        · rcases ih true c h with h' | ⟨hm, hw⟩
          · exact Or.inl h'
          · exact Or.inr ⟨List.mem_cons_of_mem _ hm, hw⟩
    · rw [if_neg hd] at hc
      rcases List.mem_cons.mp hc with h | h
      · subst h
        exact Or.inr ⟨List.mem_cons_self _ _, by simpa using hd⟩
      · rcases ih false c h with h' | ⟨hm, hw⟩
        · exact Or.inl h'
        · exact Or.inr ⟨List.mem_cons_of_mem _ hm, hw⟩

theorem head?_collapseWsAux_true :
    ∀ (l : List Char) (c : Char),
      (collapseWsAux true l).head? = some c → c.isWhitespace = false := by
  intro l
  induction l with
  | nil => intro c hc; simp [collapseWsAux] at hc
  | cons d cs ih =>
    intro c hc
    simp only [collapseWsAux] at hc
    by_cases hd : d.isWhitespace
    · rw [if_pos hd] at hc
      exact ih c hc
    · rw [if_neg hd] at hc
      simp only [List.head?_cons, Option.some.injEq] at hc
      subst hc
      simpa using hd

theorem chain'_collapseWsAux :
    ∀ (b : Bool) (l : List Char),
      List.Chain' (fun a c => a.isWhitespace = true → c.isWhitespace = false)
        (collapseWsAux b l) := by
  intro b l
  induction l generalizing b with
  | nil => simp [collapseWsAux]
  | cons d cs ih =>
    simp only [collapseWsAux]
    by_cases hd : d.isWhitespace
    · rw [if_pos hd]
      cases b with
      | true => exact ih true
      | false =>
        show List.Chain' _ (' ' :: collapseWsAux true cs)
        rw [List.chain'_cons']
        exact ⟨fun y hy _ => head?_collapseWsAux_true cs y hy, ih true⟩
    · rw [if_neg hd]
      rw [List.chain'_cons']
      refine ⟨fun y hy hws => absurd hws (by simpa using hd), ih false⟩

theorem noNl_collapseWs (l : List Char) : '\n' ∉ collapseWs l := by
  intro hm
  rcases mem_collapseWsAux false l '\n' hm with h | ⟨_, h2⟩
  · exact absurd h (by decide)
  · exact absurd h2 (by decide)

/-! ### Lemmas about the newline-run replace -/

theorem replNlF_eq_self : ∀ (fuel : Nat) (l : List Char), '\n' ∉ l → replNlF fuel l = l := by
  intro fuel
  induction fuel with
  | zero => intro l _; rfl
  | succ n ih =>
    intro l h
    cases l with
    | nil => rfl
    | cons c cs =>
      have hc : ¬(c = '\n') := by
        intro e
        exact h (by rw [e]; exact List.mem_cons_self _ _)
      simp only [replNlF]
      rw [if_neg hc, ih cs (fun hm => h (List.mem_cons_of_mem _ hm))]

theorem replNl_eq_self {l : List Char} (h : '\n' ∉ l) : replNl l = l :=
  replNlF_eq_self _ l h

/-! ### Lemmas about the clean-up chain -/

theorem cleanup_data (s : String) :
    (cleanup s).data = (trimL (collapseWs s.data)).take 4000 := by
  show (trimL (replNl (collapseWs s.data))).take 4000 = _
  rw [replNl_eq_self (noNl_collapseWs _)]

theorem cleanup_length (s : String) : (cleanup s).length ≤ 4000 := by
  show (cleanup s).data.length ≤ 4000
  rw [cleanup_data]
  exact List.length_take_le _ _

theorem cleanup_take_subseg (s : String) :
    (cleanup s).data <:+: collapseWs s.data := by
  rw [cleanup_data]
  exact List.IsInfix.trans
    ( List.IsPrefix.isInfix ( List.take_prefix _ _)) (trimL_subseg _)

theorem noNl_cleanup (s : String) : '\n' ∉ (cleanup s).data := by
  intro hm
  exact noNl_collapseWs s.data ((cleanup_take_subseg s).sublist.subset hm)

theorem chain'_cleanup (s : String) :
    List.Chain' (fun a c => a.isWhitespace = true → c.isWhitespace = false)
      (cleanup s).data :=
  List.Chain'.infix (chain'_collapseWsAux false s.data) (cleanup_take_subseg s)

theorem head?_cleanup_not_ws (s : String) :
    ∀ c, (cleanup s).data.head? = some c → c.isWhitespace = false := by
  intro c hc
  rw [cleanup_data] at hc
  have hpre : ((trimL (collapseWs s.data)).take 4000) <+: trimL (collapseWs s.data) :=
    List.take_prefix _ _
  obtain ⟨t, ht⟩ := hpre
  have hne : (trimL (collapseWs s.data)).take 4000 ≠ [] := by
    intro he
    rw [he] at hc
    simp at hc
  have hhead : (trimL (collapseWs s.data)).head? = some c := by
    rw [← ht, List.head?_append_of_ne_nil _ hne, hc]
  exact head?_trimL_not_ws _ c hhead

theorem noDoubleSpace_of_chain' :
    ∀ {l : List Char},
      List.Chain' (fun a c => a.isWhitespace = true → c.isWhitespace = false) l →
      noDoubleSpace l = true := by
  intro l
  induction l with
  | nil => intro _; rfl
  | cons a t ih =>
    cases t with
    | nil => intro _; rfl
    | cons b r =>
      intro h
      rw [List.chain'_cons] at h
      obtain ⟨hab, ht⟩ := h
      simp only [noDoubleSpace, Bool.and_eq_true]
      refine ⟨?_, ih ht⟩
      by_cases ha : a = ' '
      · have hb : b.isWhitespace = false := hab (by rw [ha]; decide)
        have hb' : ¬(b = ' ') := by
          intro e
          rw [e] at hb
          exact absurd hb (by decide)
        simp [ha, hb']
      · simp [ha]

/-! ### Lemmas about `searchGoogle` -/

theorem searchGoogle_length_le (o : FetchOutcome (List Candidate)) :
    (searchGoogle o).length ≤ 8 := by
  cases o with
  | failure => simp [searchGoogle]
  | success cands => exact List.length_take_le _ _

theorem acceptCandidate_url {c : Candidate} {r : SearchResult}
    (h : acceptCandidate c = some r) :
    jsStartsWith r.url "http" = true ∧ jsTrim r.url = r.url ∧
      jsTrim r.title = r.title ∧ jsTrim r.snippet = r.snippet := by
  obtain ⟨t0, href0, s0⟩ := c
  cases href0 with
  | none => simp [acceptCandidate] at h
  | some u =>
    simp only [acceptCandidate] at h
    split at h
    next hcond =>
      obtain ⟨-, hhttp, -, -⟩ := hcond
      cases h
      refine ⟨?_, ?_, ?_, ?_⟩
      · -- the trimmed url still starts with "http"
        show ("http".data.isPrefixOf (jsTrim u).data) = true
        rw [ List.isPrefixOf_iff_prefix]
        have hp : "http".data <+: u.data := by
          have hb := hhttp
          unfold jsStartsWith at hb
          exact List.isPrefixOf_iff_prefix.mp hb
        exact prefix_trimL (by decide) (by decide) hp
      · show jsTrim (jsTrim u) = jsTrim u
        unfold jsTrim
        exact congrArg String.mk (trimL_idem _)
      · show jsTrim (jsTrim t0) = jsTrim t0
        unfold jsTrim
        exact congrArg String.mk (trimL_idem _)
      · show jsTrim (jsTrim s0) = jsTrim s0
        unfold jsTrim
        exact congrArg String.mk (trimL_idem _)
    next => exact Option.noConfusion h

theorem searchGoogle_mem {o : FetchOutcome (List Candidate)} {r : SearchResult}
    (h : r ∈ searchGoogle o) :
    jsStartsWith r.url "http" = true ∧ jsTrim r.url = r.url ∧
      jsTrim r.title = r.title ∧ jsTrim r.snippet = r.snippet := by
  cases o with
  | failure => simp [searchGoogle] at h
  | success cands =>
    have h1 : r ∈ cands.filterMap acceptCandidate := List.mem_of_mem_take h
    obtain ⟨c, -, hc⟩ := List.mem_filterMap.mp h1
    exact acceptCandidate_url hc

/-! ### Lemmas about `processSources` and `synthesizeInformation` -/

theorem processSources_snd (eo : String → FetchOutcome Doc) :
    ∀ sources : List SearchResult,
      (processSources eo sources).2 =
        (sources.filter fun s => extractContent (eo s.url) ≠ "").map
          (fun s => s.url) := by
  intro sources
  induction sources with
  | nil => rfl
  | cons s rest ih =>
    by_cases hc : extractContent (eo s.url) ≠ ""
    · simp [processSources, List.filter_cons, hc, ih]
    · simp [processSources, List.filter_cons, hc, ih]

theorem synthesizeInformation_snd_sublist (query : String) (sources : List SearchResult)
    (eo : String → FetchOutcome Doc) (so : Completion) :
    List.Sublist (synthesizeInformation query sources eo so).2
      ((sources.filter fun s => extractContent (eo s.url) ≠ "").map (fun s => s.url)) := by
  cases so with
  | failure => exact List.nil_sublist _
  | success content =>
    cases content with
    | none =>
      show List.Sublist (processSources eo sources).2 _
      rw [processSources_snd]
    | some c =>
      show List.Sublist (processSources eo sources).2 _
      rw [processSources_snd]

/-- Appending searches over a query list: any element of the folded
accumulation is in the initial accumulator or comes from one query's
search. -/
theorem mem_foldl_append {α β : Type} (f : β → List α) :
    ∀ (l : List β) (acc : List α) (r : α),
      r ∈ l.foldl (fun a x => a ++ f x) acc → r ∈ acc ∨ ∃ x ∈ l, r ∈ f x := by
  intro l
  induction l with
  | nil => intro acc r h; exact Or.inl h
  | cons x xs ih =>
    intro acc r h
    rcases ih (acc ++ f x) r h with h' | ⟨y, hy, hr⟩
    · rcases List.mem_append.mp h' with h'' | h''
      · exact Or.inl h''
      · exact Or.inr ⟨x, List.mem_cons_self _ _, h''⟩
    · exact Or.inr ⟨y, List.mem_cons_of_mem _ hy, hr⟩

theorem contains_eq_false_of_not_mem {a : Char} {l : List Char} (h : a ∉ l) :
    l.contains a = false := by
  cases hc : l.contains a
  · rfl
  · exact absurd (List.elem_iff.mp hc) h

theorem extract_no_nl (o : FetchOutcome Doc) :
    (extractContent o).data.contains '\n' = false := by
  cases o with
  | failure => rfl
  | success d => exact contains_eq_false_of_not_mem (noNl_cleanup _)

theorem extract_head_not_ws (o : FetchOutcome Doc) :
    ((extractContent o).data.head?.all fun c => !c.isWhitespace) = true := by
  cases o with
  | failure => rfl
  | success d =>
    cases hh : (extractContent (FetchOutcome.success d)).data.head? with
    | none => rfl
    | some c =>
      have := head?_cleanup_not_ws (pickContent d) c hh
      simp [Option.all, this]

theorem extract_noDoubleSpace (o : FetchOutcome Doc) :
    noDoubleSpace (extractContent o).data = true := by
  cases o with
  | failure => rfl
  | success d => exact noDoubleSpace_of_chain' (chain'_cleanup _)

theorem extract_length_le (o : FetchOutcome Doc) : (extractContent o).length ≤ 4000 := by
  cases o with
  | failure => simp [extractContent]
  | success d => exact cleanup_length _

/-! ### Lemmas about the selector scan -/

theorem selectorScan_eq (d : Doc) :
    ∀ sels : List String,
      selectorScan d sels =
        match sels.findSome? d.selText with
        | some t => jsTrim t
        | none => "" := by
  intro sels
  induction sels with
  | nil => rfl
  | cons sel rest ih =>
    simp only [selectorScan, List.findSome?_cons]
    cases d.selText sel with
    | some t => rfl
    | none => exact ih

theorem pickContent_eq (d : Doc) :
    pickContent d =
      match firstSelMatch d with
      | some t => if jsTrim t = "" then paragraphFallback d else jsTrim t
      | none => paragraphFallback d := by
  unfold pickContent firstSelMatch
  rw [selectorScan_eq]
  cases contentSelectors.findSome? d.selText with
  | none => simp
  | some t => by_cases ht : jsTrim t = "" <;> simp [ht]

/-! ### Symbolic evaluation of the extractor on `doc6` -/

theorem collapseWsAux_append_nonws {m : List Char}
    (hm : ∀ c ∈ m, c.isWhitespace = false) (rest : List Char) :
    collapseWsAux false (m ++ rest) = m ++ collapseWsAux false rest := by
  induction m with
  | nil => rfl
  | cons d ds ih =>
    have hd : d.isWhitespace = false := hm d (List.mem_cons_self _ _)
    show collapseWsAux false (d :: (ds ++ rest)) = _
    simp only [collapseWsAux]
    rw [if_neg (by simp [hd])]
    rw [ih fun c hc => hm c (List.mem_cons_of_mem _ hc)]
    rfl

theorem padA_nonws : ∀ c ∈ padA, c.isWhitespace = false := by
  intro c hc
  rw [List.eq_of_mem_replicate hc]
  rfl

theorem padA_length : padA.length = 3999 := List.length_replicate _ _

theorem padA_ne_nil : padA ≠ [] := by
  intro h
  have h2 := congrArg List.length h
  rw [padA_length] at h2
  exact absurd h2 (by decide)

theorem trimL_padA_seg : trimL (padA ++ ' ' :: 'b' :: ['b']) = padA ++ ' ' :: 'b' :: ['b'] := by
  apply trimL_eq_self
  · intro c hc
    rw [List.head?_append_of_ne_nil _ padA_ne_nil] at hc
    rw [show padA.head? = some 'a' by simp [padA, List.head?_replicate]] at hc
    cases hc
    rfl
  · intro c hc
    rw [show padA ++ ' ' :: 'b' :: ['b'] = (padA ++ [' ', 'b']) ++ ['b'] by
      simp [List.append_assoc]] at hc
    rw [List.getLast?_concat] at hc
    cases hc
    rfl

theorem collapseWs_padA_seg :
    collapseWs (padA ++ ' ' :: 'b' :: ['b']) = padA ++ ' ' :: 'b' :: ['b'] := by
  show collapseWsAux false (padA ++ ' ' :: 'b' :: ['b']) = _
  rw [collapseWsAux_append_nonws padA_nonws]
  rfl

theorem noNl_padA_seg : '\n' ∉ padA ++ ' ' :: 'b' :: ['b'] := by
  intro h
  rcases List.mem_append.mp h with h | h
  · exact absurd (List.eq_of_mem_replicate h) (by decide)
  · exact absurd h (by decide)

theorem mk_padA_seg_ne_empty : (⟨padA ++ ' ' :: 'b' :: ['b']⟩ : String) ≠ "" := by
  intro h
  have h2 := congrArg List.length (congrArg String.data h)
  rw [List.length_append, padA_length] at h2
  simp only [List.length_cons, List.length_nil] at h2
  omega

theorem extract_doc6 :
    extractContent (.success doc6) = ⟨padA ++ [' ']⟩ := by
  have hscan : selectorScan doc6 contentSelectors = ⟨trimL (padA ++ ' ' :: 'b' :: ['b'])⟩ := rfl
  have hpick : pickContent doc6 = ⟨padA ++ ' ' :: 'b' :: ['b']⟩ := by
    show (if selectorScan doc6 contentSelectors = "" then paragraphFallback doc6
          else selectorScan doc6 contentSelectors) = _
    rw [hscan, trimL_padA_seg, if_neg mk_padA_seg_ne_empty]
  show cleanup (pickContent doc6) = _
  rw [hpick]
  show String.mk ((trimL (replNl (collapseWs (padA ++ ' ' :: 'b' :: ['b'])))).take 4000) = _
  rw [collapseWs_padA_seg, replNl_eq_self noNl_padA_seg, trimL_padA_seg]
  apply congrArg String.mk
  rw [List.take_append_eq_append_take,
    List.take_of_length_le (by rw [padA_length]; decide), padA_length]
  rfl

theorem trimL_padA_space : trimL (padA ++ [' ']) = padA := by
  show ((padA ++ [' ']).dropWhile Char.isWhitespace).rdropWhile Char.isWhitespace = padA
  rw [List.dropWhile_append, dropWhile_eq_self_of_all padA_nonws]
  rw [if_neg (by simp [padA_ne_nil])]
  rw [List.rdropWhile_concat_pos _ _ _ (by rfl)]
  show List.reverse (padA.reverse.dropWhile Char.isWhitespace) = padA
  rw [dropWhile_eq_self_of_all fun c hc => padA_nonws c (List.mem_reverse.mp hc)]
  exact List.reverse_reverse _

/-! ### Claim theorems -/

/-- C1, counterexample: when the same source appears twice in the accumulated
list (which the pipeline allows, since no deduplication is performed across
expanded queries), the citation list returned by the synthesizer repeats the
url, so it is not pairwise distinct. -/
theorem C1_counterexample :
    ¬ ((synthesizeInformation "q" [srcA, srcA] eoHello (.success (some "ans"))).2).Nodup := by
  decide

/-- C1, amended: the citation list produced by the synthesizer is pairwise
distinct whenever the urls of the accumulated sources are pairwise distinct;
with duplicated source urls duplicate citations do occur. -/
theorem C1_nodup (query : String) (sources : List SearchResult)
    (eo : String → FetchOutcome Doc) (so : Completion)
    (h : (sources.map fun s => s.url).Nodup) :
    ((synthesizeInformation query sources eo so).2).Nodup := by
  have hsub := synthesizeInformation_snd_sublist query sources eo so
  have h2 : List.Sublist
      ((sources.filter fun s => extractContent (eo s.url) ≠ "").map fun s => s.url)
      (sources.map fun s => s.url) := (List.filter_sublist _).map _
  exact List.Nodup.sublist (hsub.trans h2) h

theorem C1_witness :
    ((List.map (fun s => s.url) [srcA]).Nodup) ∧
      ((synthesizeInformation "q" [srcA] eoHello (.success (some "ans"))).2).Nodup :=
  ⟨by decide, C1_nodup "q" [srcA] eoHello (.success (some "ans")) (by decide)⟩

/-- C2, counterexample: a completion whose content is the non-empty but
whitespace-only string `" "` is truthy in the source, so the fallback is not
taken, yet every line is blank and filtered out: the result is the empty
sequence, not a non-empty one. -/
theorem C2_counterexample :
    generateSearchQueries "q" (.success (some " ")) = [] := by decide

/-- C2, amended: on a thrown completion call, a null content, or an
empty-string content the expansion returns exactly `[question]`; when the
content is a non-empty string the result is its non-blank lines, which is
non-empty provided at least one line is non-blank (a whitespace-only content
yields the empty sequence). -/
theorem C2_expand :
    (∀ q : String, generateSearchQueries q .failure = [q]) ∧
    (∀ q : String, generateSearchQueries q (.success none) = [q]) ∧
    (∀ q : String, generateSearchQueries q (.success (some "")) = [q]) ∧
    (∀ q content : String, (∃ l ∈ jsSplitNl content, jsTrim l ≠ "") →
      generateSearchQueries q (.success (some content)) ≠ []) := by
  refine ⟨fun q => rfl, fun q => rfl, fun q => rfl, ?_⟩
  intro q content h
  obtain ⟨l, hl, hne⟩ := h
  simp only [generateSearchQueries]
  by_cases hc : content = ""
  · subst hc
    simp
  · rw [if_neg hc]
    intro he
    exact absurd (by simpa using hne) (by simpa using List.filter_eq_nil_iff.mp he l hl)

theorem C2_witness :
    (∃ l ∈ jsSplitNl "w", jsTrim l ≠ "") ∧
      generateSearchQueries "q" (.success (some "w")) ≠ [] :=
  ⟨by decide, C2_expand.2.2.2 "q" "w" (by decide)⟩

/-- C3, counterexample: a result container whose title is the whitespace-only
string `" "` passes the acceptance test (truthiness is checked before
trimming), so the parser returns an entry whose stored, trimmed title is
empty — contradicting both the non-empty-after-trimming guarantee and the
stated acceptance condition. -/
theorem C3_counterexample :
    searchGoogle (.success [cand3]) =
      [{ title := "", url := "http://a.example", snippet := "s" }] := by decide

/-- C3, amended: the parser returns at most 8 entries; every returned entry
has a url that starts with `http` and title, url, snippet equal to their own
trimmed forms — but acceptance tests the raw strings for non-emptiness before
trimming, so a stored title or snippet may be empty when the raw value was
whitespace-only. -/
theorem C3_search (o : FetchOutcome (List Candidate)) :
    (searchGoogle o).length ≤ 8 ∧
    ∀ r ∈ searchGoogle o, jsStartsWith r.url "http" = true ∧ jsTrim r.url = r.url ∧
      jsTrim r.title = r.title ∧ jsTrim r.snippet = r.snippet :=
  ⟨searchGoogle_length_le o, fun _ hr => searchGoogle_mem hr⟩

theorem C3_witness :
    jsStartsWith (srcA : SearchResult).url "http" = true ∧
      jsTrim (srcA : SearchResult).url = (srcA : SearchResult).url ∧
      jsTrim (srcA : SearchResult).title = (srcA : SearchResult).title ∧
      jsTrim (srcA : SearchResult).snippet = (srcA : SearchResult).snippet :=
  (C3_search (.success [⟨"T", some "http://a.example", "snip"⟩])).2 srcA (by decide)

/-- C4, counterexample: a parsed body without a `query` field does not make
the handler throw — destructuring just yields the undefined value and every
pipeline stage absorbs its own failures — so the endpoint answers 200, not
500. -/
theorem C4_counterexample :
    (POST (.json none) oracles0).status = 200 := by decide

/-- C4, amended: the endpoint responds with HTTP 500 and an `error` field
exactly when the inbound body cannot be parsed as JSON or is the JSON
literal `null` — the parse call and the destructuring of its result are the
only statements in the `try` block that can throw; a parseable non-null body
missing the `query` field is processed normally and yields HTTP 200. -/
theorem C4_status (body : RequestBody) (o : Oracles) :
    ((POST body o).status = 500 ↔ body = .invalidJson ∨ body = .jsonNull) ∧
    POST .invalidJson o = .err 500 "Failed to process search" ∧
    POST .jsonNull o = .err 500 "Failed to process search" := by
  refine ⟨?_, rfl, rfl⟩
  cases body with
  | invalidJson => exact iff_of_true rfl (Or.inl rfl)
  | jsonNull => exact iff_of_true rfl (Or.inr rfl)
  | json q =>
    refine iff_of_false (by simp [POST, PostResponse.status]) ?_
    rintro (h | h) <;> exact RequestBody.noConfusion h

/-- C5, counterexample: on a page whose `article` element exists with empty
text while `main` holds `"Hello world"`, the spec-side rule ("first selector
matching a non-empty element wins, its full text used verbatim") designates
`"Hello world"`, but the source breaks out of the loop at `article` (the
first selector that merely matches) and then falls back to the paragraph
join, producing `""`. -/
theorem C5_counterexample :
    specFirstNonEmptySelText doc5 = some "Hello world" ∧
      pickContent doc5 ≠ "Hello world" := by decide

/-- C5, amended: the first selector of the priority list that matches any
element (empty or not) determines the content as that element's trimmed
text; the paragraph fallback is used exactly when no selector matches at all
or when the first matching selector's trimmed text is empty. -/
theorem C5_pickContent (d : Doc) :
    pickContent d =
      match firstSelMatch d with
      | some t => if jsTrim t = "" then paragraphFallback d else jsTrim t
      | none => paragraphFallback d :=
  pickContent_eq d

/-- C6, counterexample: an `article` text of 3999 `'a'`s, a space, then
`"bb"` survives normalization unchanged and is cut at 4000 characters, so the
returned string ends with the space: it is not equal to its own trimmed
form. -/
theorem C6_counterexample :
    jsTrim (extractContent (.success doc6)) ≠ extractContent (.success doc6) := by
  rw [extract_doc6]
  show String.mk (trimL (padA ++ [' '])) ≠ _
  rw [trimL_padA_space]
  intro h
  have h2 := congrArg List.length (congrArg String.data h)
  rw [padA_length, List.length_append, padA_length] at h2
  simp at h2

/-- C6, amended: the extractor's result has at most 4000 characters, no two
adjacent space characters, no newline at all (hence no blank lines), and no
leading whitespace; but because the source trims before truncating, the
result can end in a single space when the normalized text exceeds 4000
characters, so it need not equal its own trimmed form. -/
theorem C6_extract (o : FetchOutcome Doc) :
    (extractContent o).length ≤ 4000 ∧
    noDoubleSpace (extractContent o).data = true ∧
    (extractContent o).data.contains '\n' = false ∧
    ((extractContent o).data.head?.all fun c => !c.isWhitespace) = true :=
  ⟨extract_length_le o, extract_noDoubleSpace o, extract_no_nl o, extract_head_not_ws o⟩

/-- C7, counterexample: when the synthesis completion call throws, the catch
branch discards the accumulated citations and returns `[]`, which is not the
list of urls whose extraction yielded non-empty content. -/
theorem C7_counterexample :
    (synthesizeInformation "q" [srcA] eoHello .failure).2 ≠
      (([srcA].filter fun s => extractContent (eoHello s.url) ≠ "").map fun s => s.url) := by
  decide

/-- C7, amended: the citation list is always a subsequence of the input
sources' urls; and whenever the synthesis completion call does not throw it
is exactly the urls whose extraction yielded non-empty content, in input
order (on a thrown call it is empty). -/
theorem C7_citations (query : String) (sources : List SearchResult)
    (eo : String → FetchOutcome Doc) (so : Completion) (h : so ≠ .failure) :
    List.Sublist (synthesizeInformation query sources eo so).2
      (sources.map fun s => s.url) ∧
    (synthesizeInformation query sources eo so).2 =
      (sources.filter fun s => extractContent (eo s.url) ≠ "").map (fun s => s.url) := by
  refine ⟨?_, ?_⟩
  · exact (synthesizeInformation_snd_sublist query sources eo so).trans
      ((List.filter_sublist _).map _)
  · cases so with
    | failure => exact absurd rfl h
    | success content =>
      cases content with
      | none => exact processSources_snd eo sources
      | some c => exact processSources_snd eo sources

theorem C7_witness :
    (synthesizeInformation "q" [srcA] eoHello (.success (some "ans"))).2 =
      (([srcA].filter fun s => extractContent (eoHello s.url) ≠ "").map fun s => s.url) :=
  (C7_citations "q" [srcA] eoHello (.success (some "ans")) (by decide)).2

/-- C8: a thrown synthesis completion call yields the fixed error message
with an empty citation list, and a successful call with null content yields
the fixed fallback string with the accumulated citation list (the urls whose
extraction yielded non-empty content, in order). -/
theorem C8_synth (query : String) (sources : List SearchResult)
    (eo : String → FetchOutcome Doc) :
    synthesizeInformation query sources eo .failure =
      ("Error synthesizing information.", []) ∧
    synthesizeInformation query sources eo (.success none) =
      ("No content available",
        (sources.filter fun s => extractContent (eo s.url) ≠ "").map fun s => s.url) := by
  refine ⟨rfl, ?_⟩
  show (_, (processSources eo sources).2) = _
  rw [processSources_snd]

/-- C9: the first normalization replace collapses every whitespace run —
newlines included — to a single space, so the newline-run replace finds
nothing to rewrite and the extractor's output never contains a newline
character: it is always a single line. -/
theorem C9_single_line :
    (∀ s : String, replNl (collapseWs s.data) = collapseWs s.data) ∧
    (∀ o : FetchOutcome Doc, (extractContent o).data.contains '\n' = false) :=
  ⟨fun s => replNl_eq_self (noNl_collapseWs s.data), extract_no_nl⟩

/-- C10: every url in the citations of the response assembled by the endpoint
starts with `http` and equals its own trimmed form — citations only copy urls
of sources admitted by the search parser, which stores trimmed urls that
start with `http`, and trimming is idempotent. -/
theorem C10_citations (body : RequestBody) (o : Oracles) :
    ∀ c ∈ (POST body o).citationsOf, jsStartsWith c "http" = true ∧ jsTrim c = c := by
  intro c hc
  cases body with
  | invalidJson => exact absurd hc (by simp [POST, PostResponse.citationsOf])
  | jsonNull => exact absurd hc (by simp [POST, PostResponse.citationsOf])
  | json q =>
    simp only [POST, PostResponse.citationsOf] at hc
    have hsub := synthesizeInformation_snd_sublist (q.getD "undefined")
      ((generateSearchQueries (q.getD "undefined") o.expandOutcome).foldl
        (fun acc sq => acc ++ searchGoogle (o.searchOutcome sq)) [])
      o.extractOutcome o.synthOutcome
    have hc2 := hsub.subset hc
    obtain ⟨s, hs, rfl⟩ := List.mem_map.mp hc2
    have hs2 := (List.mem_filter.mp hs).1
    rcases mem_foldl_append (fun sq => searchGoogle (o.searchOutcome sq)) _ _ _ hs2 with
      h0 | ⟨x, -, hx⟩
    · exact absurd h0 (List.not_mem_nil _)
    · obtain ⟨h1, h2, -, -⟩ := searchGoogle_mem hx
      exact ⟨h1, h2⟩

theorem C10_witness :
    jsStartsWith "http://a.example" "http" = true ∧
      jsTrim "http://a.example" = "http://a.example" :=
  C10_citations (.json (some "question")) oraclesOk "http://a.example" (by decide)

end SearchEngine
